import Mathlib

/-!
A shallow embedding of the task execution and deduplication engine of
zugzug-go (packages `zug`, `zug/worker`) and its command-line task
resolver (package `zugzug`), together with theorems checking the
natural-language specification against this embedding.

Modelling conventions:
* Go `error` values are compared by identity of their message
  (`GoErr`); `nil` is `Option.none`.
* Goroutine interleavings are modelled as sequential call sequences;
  `sync.Once`/mutex-protected sections are atomic steps.
* Pointers to `result` cells and to `worker` structs (package
  `worker`) are modelled as indices into explicit heaps, because
  `worker.LocalState` copies cell pointers and `worker.With` stores
  the address of a local `*worker` variable — a `**worker` — in the
  context, both of which are observable.
-/

namespace Zugzug

/-- A Go error value, identified by its message. `nil` is modelled as
`Option.none` at use sites. -/
structure GoErr where
  msg : String
deriving DecidableEq, Repr

/-- A value recovered from a Go panic: either an `error` value or any
other value, which `fmt.Errorf` renders as a string. -/
inductive PanicValue where
  | err (e : GoErr)
  | other (s : String)
deriving DecidableEq, Repr

/-- How `runTask`'s deferred recover turns a panic value into an error:
an `error` panic value is kept, anything else goes through
`fmt.Errorf` with the `v` verb. -/
def wrapPanic : PanicValue → GoErr
  | .err e => e
  | .other s => ⟨s⟩

/-! ## Identity tracker: package `zug/worker` -/

/-- `worker.resultID`: the pair of the caller-chosen `id : uint` and
the function entry address `pc : uintptr`. -/
structure ResultID where
  id : Nat
  pc : Nat
deriving DecidableEq, Repr

/-- `worker.result`: a completion cell holding a `sync.Once` (`fired`)
and the cached error of the one execution. -/
structure Cell where
  fired : Bool
  err : Option GoErr
deriving DecidableEq, Repr

/-- The heap of allocated `result` cells; a Go pointer `*result` is an
index into this list. -/
abbrev Heap := List Cell

/-- `worker.state`: the identity table of one scope, mapping a
`resultID` to the address of its completion cell. -/
abbrev Scope := List (ResultID × Nat)

/-- Map lookup in a scope's identity table. -/
def lookupScope : Scope → ResultID → Option Nat
  | [], _ => none
  | (r, a) :: rest, rid => if r = rid then some a else lookupScope rest rid

/-- Dereference a cell address in the heap. -/
def cellAt : Heap → Nat → Option Cell
  | [], _ => none
  | c :: _, 0 => some c
  | _ :: h, n + 1 => cellAt h n

/-- Overwrite the cell at an address. -/
def setCell : Heap → Nat → Cell → Heap
  | [], _, _ => []
  | _ :: h, 0, c => c :: h
  | c0 :: h, n + 1, c => c0 :: setCell h n c

/-- Result of one `worker.run` call: the returned error, the heap and
scope afterwards, and whether the body was executed by this call. -/
structure RunOut where
  ret : Option GoErr
  heap : Heap
  scope : Scope
  executed : Bool
deriving Repr

/-- `worker.run` (worker.go lines 78-90): look up the `resultID` in the
scope's table under the lock, creating and registering a fresh cell
when absent, then `state.once.Do(fn)` and return `state.err`.  The
body is modelled by the error value `body` it would produce; in a
sequential interleaving the once either already fired (cached result
returned, body not executed) or fires now. A fresh cell is allocated
at the end of the heap. -/
def workerRun (h : Heap) (sc : Scope) (rid : ResultID) (body : Option GoErr) : RunOut :=
  match lookupScope sc rid with
  | some a =>
    match cellAt h a with
    | some c =>
      if c.fired then ⟨c.err, h, sc, false⟩
      else ⟨body, setCell h a ⟨true, body⟩, sc, true⟩
    | none => ⟨none, h, sc, false⟩
  | none =>
    ⟨body, h ++ [⟨true, body⟩], (rid, h.length) :: sc, true⟩

/-- The worker-derivation options of worker.go: `EmptyState` (lines
34-40) builds a new worker with a fresh empty table; `LocalState`
(lines 44-53) builds a new worker whose table is a copy of the
previous worker's entries — the entries map identities to the same
completion-cell pointers (heap addresses). -/
inductive WOption where
  | emptyStateOpt
  | localStateOpt
deriving DecidableEq, Repr

/-- The list of allocated `worker` structs, each reduced to its
`state` table; a Go `*worker` is an index into this list.  Index 0 is
`globalWorker`. -/
abbrev Workers := List Scope

/-- Dereference a `*worker` to its table (addresses are always
allocated by the model, so the default is unreachable). -/
def tableAt : Workers → Nat → Scope
  | [], _ => []
  | t :: _, 0 => t
  | _ :: ts, n + 1 => tableAt ts n

/-- Overwrite a worker's table. -/
def setTable : Workers → Nat → Scope → Workers
  | [], _, _ => []
  | _ :: ts, 0, t => t :: ts
  | t0 :: ts, n + 1, t => t0 :: setTable ts n t

/-- The mutable process state seen by package `worker`: the heap of
`result` cells and the allocated worker structs. -/
structure World where
  cells : Heap
  workers : Workers

/-- What a context can carry under the unexported `ctxWorker{}` key: a
value of type `*worker`, or — what `worker.With` actually stores with
`&w` where `w` is its local `*worker` variable — a value of type
`**worker` holding the address of that variable. -/
inductive CtxVal where
  | ptr (w : Nat)
  | ptrPtr (w : Nat)
deriving DecidableEq, Repr

/-- `worker.from` (worker.go lines 57-63): the type assertion
`ctx.Value(ctxWorker{}).(*worker)` succeeds only on a value of dynamic
type `*worker`; on a `**worker` (what `With` stores) and on an absent
value it fails and `globalWorker` (index 0) is returned. -/
def fromCtx : Option CtxVal → Nat
  | some (.ptr w) => w
  | some (.ptrPtr _) => 0
  | none => 0

/-- The `w = option(w)` loop of `worker.With`: each option reads the
current worker and allocates a new worker struct with the derived
table (appended to the worker heap); with no options `w` stays aliased
to `w0`. Returns the updated worker heap and the final value of `w`. -/
def applyOptions (workers : Workers) (wref : Nat) : List WOption → Workers × Nat
  | [] => (workers, wref)
  | o :: os =>
    let prev := tableAt workers wref
    let next : Scope :=
      match o with
      | .emptyStateOpt => []
      | .localStateOpt => prev
    applyOptions (workers ++ [next]) workers.length os

/-- `worker.With` (worker.go lines 21-30): resolve `w0 := from(ctx)`,
run the option loop on the local variable `w`, and store `&w` — the
address of the local `*worker` variable, i.e. a `**worker` — under the
context key of the returned context. -/
def workerWith (wd : World) (ctx : Option CtxVal) (opts : List WOption) :
    World × Option CtxVal :=
  let r := applyOptions wd.workers (fromCtx ctx) opts
  (⟨wd.cells, r.1⟩, some (.ptrPtr r.2))

/-- Result of one context-level `worker.Run` call: the returned error,
the world afterwards, and whether the body was executed. -/
structure CtxRunOut where
  ret : Option GoErr
  world : World
  executed : Bool

/-- `worker.Run` (worker.go lines 16-18): `from(ctx).run(ctx, id, fn)`
— resolve the worker from the context and run on that worker's
table. -/
def workerRunCtx (wd : World) (ctx : Option CtxVal) (rid : ResultID) (body : Option GoErr) :
    CtxRunOut :=
  let w := fromCtx ctx
  let o := workerRun wd.cells (tableAt wd.workers w) rid body
  ⟨o.ret, ⟨o.heap, setTable wd.workers w o.scope⟩, o.executed⟩

/-- Results of a sequence of `worker.run` calls for one identity:
per-call returned errors, final heap and scope, and how many calls
executed the body. -/
structure CallsOut where
  rets : List (Option GoErr)
  heap : Heap
  scope : Scope
  execs : Nat
deriving Repr

/-- Run a sequence of `worker.run` calls for the same identity, where
`bodies` lists the error each call's body would produce were it the
one to execute. -/
def runCalls (h : Heap) (sc : Scope) (rid : ResultID) : List (Option GoErr) → CallsOut
  | [] => ⟨[], h, sc, 0⟩
  | b :: bs =>
    let o := workerRun h sc rid b
    let rest := runCalls o.heap o.scope rid bs
    ⟨o.ret :: rest.rets, rest.heap, rest.scope, (if o.executed then 1 else 0) + rest.execs⟩

/-! ## Task objects made by `zug.New` (`wrapTask`) -/

/-- The mutable state of a `zug.wrapTask` object: its own `sync.Once`
and cached error (zug.go lines 90-94). -/
structure WrapState where
  fired : Bool
  err : Option GoErr
deriving DecidableEq, Repr

/-- `wrapTask.RunTask` (zug.go lines 96-99): `once.Do(fn)` then return
the cached error.  The context is passed to `fn` but never consulted
by the guard; contexts are abstracted as natural numbers.  Returns the
returned error, the new object state, and whether `fn` was executed. -/
def wrapRunTask (fn : Nat → Option GoErr) (st : WrapState) (ctx : Nat) :
    Option GoErr × WrapState × Bool :=
  if st.fired then (st.err, st, false)
  else (fn ctx, ⟨true, fn ctx⟩, true)

/-- A sequence of `RunTask` calls on one `wrapTask` object, with the
contexts passed to each call: per-call returned errors, final object
state, and the number of calls that executed `fn`. -/
def wrapCalls (fn : Nat → Option GoErr) (st : WrapState) :
    List Nat → List (Option GoErr) × WrapState × Nat
  | [] => ([], st, 0)
  | c :: cs =>
    let r := wrapRunTask fn st c
    let rest := wrapCalls fn r.2.1 cs
    (r.1 :: rest.1, rest.2.1, (if r.2.2 then 1 else 0) + rest.2.2)

/-! ## Execution engine: package `zug` (zug.go) -/

/-- The behaviour of one task's `RunTask` call for the purposes of the
engine: it either returns an error (possibly `nil`) or panics. -/
inductive TaskBeh where
  | ret (e : Option GoErr)
  | panics (v : PanicValue)
deriving DecidableEq, Repr

/-- An engine-level task: its resolved name (`taskName`) and the
behaviour of its body. -/
structure MTask where
  name : String
  beh : TaskBeh
deriving DecidableEq, Repr

/-- The observable completion of a Go call that may panic: the panic
propagates, or a value is returned. -/
inductive Outcome (α : Type) where
  | panicked (v : PanicValue)
  | value (a : α)
deriving DecidableEq, Repr

/-- `zug.Error` (zug.go lines 221-224): an error that knows the name of
the task it came from.  Go's `Error{}` zero value is `⟨"", none⟩`. -/
structure ZError where
  task : String
  err : Option GoErr
deriving DecidableEq, Repr

/-- The `debug` package variable of zug.go line 218, as shipped. -/
def debug : Bool := true

/-- `zug.runTask` (zug.go lines 196-216).  With `dbg = true` the
deferred recover is not installed: `e.Task` is set, `task.RunTask` is
called, but its error is never copied into `e.Err`, and a panic
propagates.  With `dbg = false` the recover converts a panic into an
attributed error and a non-nil returned error is attributed to the
task; on success `e` stays the zero `Error`. -/
def runTask (dbg : Bool) (t : MTask) : Outcome ZError :=
  if dbg then
    match t.beh with
    | .panics v => .panicked v
    | .ret _ => .value ⟨t.name, none⟩
  else
    match t.beh with
    | .panics v => .value ⟨t.name, some (wrapPanic v)⟩
    | .ret none => .value ⟨"", none⟩
    | .ret (some e) => .value ⟨t.name, some e⟩

/-- `zug.Run` (zug.go lines 30-42): run the tasks in order, stopping
when `runTask` reports an `Error` with non-nil `Err`.  The first
component lists the names of the tasks whose `RunTask` was invoked, in
order; a panic escapes the loop because nothing recovers it there. -/
def runSeq (dbg : Bool) : List MTask → List String × Outcome (Option ZError)
  | [] => ([], .value none)
  | t :: ts =>
    match runTask dbg t with
    | .panicked v => ([t.name], .panicked v)
    | .value e =>
      if e.err.isSome then ([t.name], .value (some e))
      else
        let rest := runSeq dbg ts
        (t.name :: rest.1, rest.2)

/-- `zug.Start` (zug.go lines 46-72): launch one goroutine per task,
store each `runTask` result at the task's index, wait for all, then
compact the slice to the entries with non-nil `Err`, returning Go
`nil` when none remain and the compacted `Errors` slice otherwise.
Every goroutine invokes its task; an unrecovered panic in any
goroutine crashes the process, modelled as the first panic in index
order. -/
def runConc (dbg : Bool) (ts : List MTask) : List String × Outcome (Option (List ZError)) :=
  let results := ts.map (runTask dbg)
  ( ts.map (·.name),
    match results.findSome? (fun r => match r with | .panicked v => some v | .value _ => none) with
    | some v => .panicked v
    | none =>
      let errs := results.filterMap
        (fun r => match r with
          | .value e => if e.err.isSome then some e else none
          | .panicked _ => none)
      if errs.isEmpty then .value none else .value (some errs) )

/-! ## Command resolver: package `zugzug` (zugzug.go) -/

/-- Token-wise comparison of the name tokens against the front of the
argument vector, mirroring the loop of `boundTask.matches`. -/
def matchTokens : List String → List String → Bool
  | [], _ => true
  | _ :: _, [] => false
  | n :: ns, a :: rest => if n = a then matchTokens ns rest else false

/-- `boundTask.matches` (zugzug.go lines 349-359): false when fewer
arguments than name tokens, otherwise exact equality of each name
token with the corresponding argument. -/
def nameMatches (name : List String) (args : List String) : Bool :=
  if args.length < name.length then false
  else matchTokens name args

/-- The result of a `Parser.Parse` collaborator call: an augmented
context (`ok`), a nil context signalling that help was requested
(`helpReq`), or an error. -/
inductive PRes where
  | ok
  | helpReq
  | err (e : GoErr)

/-- A registered bound task as the resolver sees it: its name tokens,
the outcome `Settings.Apply` would produce (`none` when there are no
settings or they apply cleanly), and the optional parser collaborator
as a function of the remaining arguments. -/
structure RTask where
  name : List String
  settings : Option GoErr
  parserFn : Option (List String → PRes)

/-- `config.match` (zugzug.go lines 330-338): visit the bound tasks in
registration order and return the first whose name matches the front
of the arguments. -/
def matchTask : List RTask → List String → Option RTask
  | [], _ => none
  | t :: ts, args => if nameMatches t.name args then some t else matchTask ts args

/-- Where a resolution pass of `config.Run` can end: the complete plan
of task names to execute, an unknown-command error carrying the
unconsumed arguments, a settings error attributed to a task, a parser
error, or help text shown for a task. -/
inductive RunRes where
  | planned (plan : List (List String))
  | unknownCmd (rest : List String)
  | settingsErr (e : GoErr) (tname : List String)
  | parserErr (e : GoErr)
  | helpShown (tname : List String)
deriving DecidableEq, Repr

/-- The `for len(args) > 0` resolution loop of `config.Run` (zugzug.go
lines 161-194), with explicit fuel (`none` means the fuel ran out
before the loop did).  One iteration: find the first matching bound
task (else fail with unknown command), apply its settings (first error
aborts), drop as many arguments as the name has tokens, hand a
declared parser all remaining arguments (error aborts; a nil context
shows help; otherwise the parser consumed everything), stop to show
help when the next remaining token is a help flag, else append the
task to the plan and continue. -/
def runLoop (cfg : List RTask) : Nat → List String → List (List String) → Option RunRes
  | 0, _, _ => none
  | _ + 1, [], plan => some (.planned plan)
  | fuel + 1, a :: args, plan =>
    match matchTask cfg (a :: args) with
    | none => some (.unknownCmd (a :: args))
    | some t =>
      match t.settings with
      | some e => some (.settingsErr e t.name)
      | none =>
        let rest := (a :: args).drop t.name.length
        match t.parserFn with
        | some p =>
          match p rest with
          | .err e => some (.parserErr e)
          | .helpReq => some (.helpShown t.name)
          | .ok => runLoop cfg fuel [] (plan ++ [t.name])
        | none =>
          match rest with
          | [] => runLoop cfg fuel [] (plan ++ [t.name])
          | r :: rs =>
            if r == "--help" || r == "-h" then some (.helpShown t.name)
            else runLoop cfg fuel (r :: rs) (plan ++ [t.name])

/-- `config.Run` (zugzug.go lines 143-204) up to the execution of the
plan: empty arguments are replaced by the default task name, a leading
help flag is rewritten to `help`, and then the resolution loop runs.
The fuel `args.length + 1` is justified by the termination theorem. -/
def configRun (cfg : List RTask) (defaultTask : String) (args : List String) : Option RunRes :=
  let args' :=
    match args with
    | [] => [defaultTask]
    | a :: rest => if a == "--help" || a == "-h" then "help" :: rest else a :: rest
  runLoop cfg (args'.length + 1) args' []

/-- `config.Parse` (zugzug.go lines 129-137), the parser of the
built-in help task: zero arguments keep the context, more than one is
an error, exactly one records the help topic. -/
def helpParse (args : List String) : PRes :=
  match args with
  | [] => .ok
  | [_] => .ok
  | _ => .err ⟨"cannot provide help for more than one argument"⟩

/-! ## Name sanitizer: `sanitize` (zugzug.go lines 377-393)

The Go code works on Unicode classes `\p{Lu}`, `\p{Ll}`, `\pL`; the
embedding uses `Char.isUpper`, `Char.isLower`, `Char.isAlpha`, which
agree on ASCII inputs, the domain of every claim about `sanitize`. -/

/-- Keep the part of the name after the last `.`, the whole name when
there is none (`strings.LastIndexByte(name, '.')` then `name[ix+1:]`). -/
def afterLastDot (s : List Char) : List Char :=
  (s.reverse.takeWhile (· ≠ '.')).reverse

/-- One pass of `rxFirstCap.ReplaceAllString(name, "${1}-${2}")` with
`rxFirstCap = (.)([\p{Lu}][\p{Ll}]+)`: at each leftmost match, a
hyphen is inserted between the single leading character and the
capitalized word, the greedy lowercase run is part of the match, and
scanning resumes after it.  The fuel is the length of the list, which
strictly exceeds the length at every recursive call. -/
def repFirstCapAux : Nat → List Char → List Char
  | 0, l => l
  | _ + 1, [] => []
  | _ + 1, [c] => [c]
  | _ + 1, [c, d] => [c, d]
  | fuel + 1, c1 :: c2 :: c3 :: rest =>
    if c2.isUpper && c3.isLower then
      c1 :: '-' :: c2 :: c3 ::
        (rest.takeWhile Char.isLower ++ repFirstCapAux fuel (rest.dropWhile Char.isLower))
    else
      c1 :: repFirstCapAux fuel (c2 :: c3 :: rest)

/-- `rxFirstCap` replacement at sufficient fuel. -/
def repFirstCap (l : List Char) : List Char := repFirstCapAux l.length l

/-- `rxAllCap.ReplaceAllString(name, "${1}-${2}")` with
`rxAllCap = ([\p{Ll}0-9])([\p{Lu}])`: insert a hyphen between a
lowercase letter or digit and the uppercase letter following it, with
scanning resuming after the uppercase letter. -/
def repAllCap : List Char → List Char
  | [] => []
  | [c] => [c]
  | c1 :: c2 :: rest =>
    if (c1.isLower || c1.isDigit) && c2.isUpper then
      c1 :: '-' :: c2 :: repAllCap rest
    else
      c1 :: repAllCap (c2 :: rest)

/-- Whether a character belongs to `[\pL0-9]` (ASCII view). -/
def isWordChar (c : Char) : Bool := c.isAlpha || c.isDigit

/-- `rxWord.FindAllString(name, -1)`: the maximal runs of letters and
digits, in order.  Fuel as in `repFirstCapAux`. -/
def wordRunsAux : Nat → List Char → List (List Char)
  | 0, _ => []
  | _ + 1, [] => []
  | fuel + 1, c :: rest =>
    if isWordChar c then
      (c :: rest.takeWhile isWordChar) :: wordRunsAux fuel (rest.dropWhile isWordChar)
    else
      wordRunsAux fuel rest

/-- The word runs of a list of characters at sufficient fuel. -/
def wordRuns (l : List Char) : List (List Char) := wordRunsAux l.length l

/-- `sanitize` (zugzug.go lines 377-393): take the segment after the
last dot, split camel-case with the two regex replacements, join the
word runs with hyphens, and lowercase. -/
def sanitize (name : String) : String :=
  let l := afterLastDot name.toList
  let l := repFirstCap l
  let l := repAllCap l
  let l := List.intercalate ['-'] (wordRuns l)
  String.mk (l.map Char.toLower)

/-! ## Concrete scenarios used by the theorems -/

/-- A task whose body returns the error `boom`. -/
def tBoom : MTask := ⟨"t1", .ret (some ⟨"boom"⟩)⟩

/-- A task whose body succeeds. -/
def tOk : MTask := ⟨"t2", .ret none⟩

/-- A task whose body panics with a non-error value. -/
def tPan : MTask := ⟨"t3", .panics (.other "oops")⟩

/-- The built-in help task bound first by `zugzug.New`, whose parser is
`config.Parse`. -/
def helpTask : RTask := ⟨["help"], none, some helpParse⟩

/-- A task registered under the one-token name `list`. -/
def listTask : RTask := ⟨["list"], none, none⟩

/-- A task registered under the three-token name `list go sources`. -/
def listGoSourcesTask : RTask := ⟨["list", "go", "sources"], none, none⟩

/-- The registration order of the command-resolution scenario: `help`
first (as `zugzug.New` binds it), then `list`, then `list go sources`. -/
def cfg7 : List RTask := [helpTask, listTask, listGoSourcesTask]

/-- A task registered under the name `go`, with a parser that consumes
the remaining arguments. -/
def goTask : RTask := ⟨["go"], none, some fun _ => .ok⟩

/-- Scope-derivation scenario, first run: complete identity `(0, 1)`
through the background context (no `ctxWorker` value, so the global
worker's table is used), caching the error `first`. -/
def w5run1 : CtxRunOut := workerRunCtx ⟨[], [[]]⟩ none ⟨0, 1⟩ (some ⟨"first"⟩)

/-- Derive a child context with `worker.With(ctx, LocalState())`. -/
def w5derived : World × Option CtxVal := workerWith w5run1.world none [.localStateOpt]

/-- Re-run the completed identity through the `LocalState`-derived
context, with a body that would yield `second` were it executed. -/
def w5run2 : CtxRunOut := workerRunCtx w5derived.1 w5derived.2 ⟨0, 1⟩ (some ⟨"second"⟩)

/-- Reset-state scenario, first run: complete identity `(0, 1)`
through the background context, caching the error `e1`. -/
def w6run1 : CtxRunOut := workerRunCtx ⟨[], [[]]⟩ none ⟨0, 1⟩ (some ⟨"e1"⟩)

/-- Derive a child context with `worker.With(ctx, EmptyState())`. -/
def w6derived : World × Option CtxVal := workerWith w6run1.world none [.emptyStateOpt]

/-- Re-run the completed identity through the `EmptyState`-derived
context, with a body that would yield `e2` were it executed. -/
def w6run2 : CtxRunOut := workerRunCtx w6derived.1 w6derived.2 ⟨0, 1⟩ (some ⟨"e2"⟩)

/-- The same re-run with a context that carries the derived worker as
an actual `*worker` value — the value `worker.from` could read — to
localize the defect to what `worker.With` stores. -/
def w6runFixed : CtxRunOut := workerRunCtx w6derived.1 (some (.ptr 1)) ⟨0, 1⟩ (some ⟨"e2"⟩)

/-! ## Helper lemmas -/

/-- The cell appended at the end of the heap is found at the old
length. -/
theorem cellAt_append_self : ∀ (h : Heap) (c : Cell), cellAt (h ++ [c]) h.length = some c
  | [], _ => rfl
  | _ :: h, c => cellAt_append_self h c

/-- Once an identity's cell has fired, any further `worker.run` calls
for it return the cached error, change nothing, and never execute a
body. -/
theorem runCalls_cached (rid : ResultID) (a : Nat) (e : Option GoErr) :
    ∀ (bs : List (Option GoErr)) (h : Heap) (sc : Scope),
      lookupScope sc rid = some a → cellAt h a = some ⟨true, e⟩ →
      runCalls h sc rid bs = ⟨List.replicate bs.length e, h, sc, 0⟩ := by
  intro bs
  induction bs with
  | nil => intro h sc _ _; rfl
  | cons b bs ih =>
    intro h sc hl hc
    simp only [runCalls, workerRun, hl, hc, if_pos rfl]
    simp [ih h sc hl hc, List.replicate_succ]

/-- A `wrapTask` whose once has fired returns its cached error on every
further call and never executes `fn` again. -/
theorem wrapCalls_fired (fn : Nat → Option GoErr) (e : Option GoErr) :
    ∀ (cs : List Nat), wrapCalls fn ⟨true, e⟩ cs = (List.replicate cs.length e, ⟨true, e⟩, 0) := by
  intro cs
  induction cs with
  | nil => rfl
  | cons c cs ih => simp [wrapCalls, wrapRunTask, ih, List.replicate_succ]

/-- A context holding the `**worker` stored by `worker.With` resolves
to `globalWorker`. -/
theorem fromCtx_ptrPtr (w : Nat) : fromCtx (some (.ptrPtr w)) = 0 := rfl

/-- `matchTokens` agrees with `List.isPrefixOf`. -/
theorem matchTokens_eq_isPrefixOf : ∀ (ns bs : List String), matchTokens ns bs = ns.isPrefixOf bs
  | [], [] => rfl
  | [], _ :: _ => rfl
  | _ :: _, [] => rfl
  | n :: ns, b :: bs => by
    by_cases h : n = b <;>
      simp [matchTokens, List.isPrefixOf, h, matchTokens_eq_isPrefixOf ns bs]

/-- A list that is a prefix of another is no longer than it. -/
theorem isPrefixOf_imp_length_le :
    ∀ (ns bs : List String), ns.isPrefixOf bs = true → ns.length ≤ bs.length
  | [], _, _ => Nat.zero_le _
  | _ :: _, [], h => by simp [List.isPrefixOf] at h
  | n :: ns, b :: bs, h => by
    simp only [List.isPrefixOf, Bool.and_eq_true] at h
    simpa using isPrefixOf_imp_length_le ns bs h.2

/-- A matched bound task's name is no longer than the argument vector. -/
theorem nameMatches_imp_length_le (name args : List String)
    (h : nameMatches name args = true) : name.length ≤ args.length := by
  unfold nameMatches at h
  split at h
  · exact absurd h (by simp)
  · omega

/-- A task returned by `config.match` is one of the registered tasks. -/
theorem matchTask_mem : ∀ (cfg : List RTask) (args : List String) (t : RTask),
    matchTask cfg args = some t → t ∈ cfg := by
  intro cfg args t
  induction cfg with
  | nil => intro h; exact absurd h (by simp [matchTask])
  | cons t0 ts ih =>
    intro h
    unfold matchTask at h
    split at h
    · cases h; exact List.mem_cons_self _ _
    · exact List.mem_cons_of_mem _ (ih h)

/-- A task returned by `config.match` matches the argument vector. -/
theorem matchTask_matches : ∀ (cfg : List RTask) (args : List String) (t : RTask),
    matchTask cfg args = some t → nameMatches t.name args = true := by
  intro cfg args t
  induction cfg with
  | nil => intro h; exact absurd h (by simp [matchTask])
  | cons t0 ts ih =>
    intro h
    unfold matchTask at h
    split at h
    · cases h; assumption
    · exact ih h

/-! ## Claim theorems -/

/-- Claim C1: the claim says that `zug.Run` returns the first task's
non-nil error immediately and skips the remaining tasks.  The shipped
code has `debug = true`, so `runTask` never copies a returned error
into `Error.Err`: on the input `[tBoom, tOk]`, where `tBoom` is the
first task and fails with `boom`, the code executes both tasks and
`Run` returns nil.  With the recover path enabled (`debug = false`),
the behaviour the claim and the code's own doc comment describe holds:
only `tBoom` executes and its attributed error is returned. -/
theorem c1_seq_run_discards_errors :
    debug = true ∧
    runSeq debug [tBoom, tOk] = (["t1", "t2"], .value none) ∧
    runSeq false [tBoom, tOk] = (["t1"], .value (some ⟨"t1", some ⟨"boom"⟩⟩)) := by
  decide

/-- Claim C2: the claim says `zug.Start` runs every task, waits for
all, and aggregates exactly the non-nil per-task errors in input
order.  Every task is indeed executed, but with the shipped
`debug = true` every `runTask` result carries a nil `Err`, so `Start`
returns nil even when a task failed.  With `debug = false` the
claimed aggregation (here a single failing task among two) holds. -/
theorem c2_start_discards_errors :
    debug = true ∧
    runConc debug [tBoom, tOk] = (["t1", "t2"], .value none) ∧
    runConc false [tBoom, tOk] = (["t1", "t2"], .value (some [⟨"t1", some ⟨"boom"⟩⟩])) := by
  decide

/-- Claim C4: the claim says a panicking task body is recovered and
converted into an error attributed to the task's name.  With the
shipped `debug = true` the deferred recover of `runTask` is never
installed, so the panic propagates out of the run; with
`debug = false` the claimed conversion happens. -/
theorem c4_panic_not_recovered :
    debug = true ∧
    runTask debug tPan = .panicked (.other "oops") ∧
    runTask false tPan = .value ⟨"t3", some ⟨"oops"⟩⟩ := by
  decide

/-- Claim C8: `sanitize` maps `CheckSpelling` to `check-spelling` and
`HTTPServer` to `http-server`. -/
theorem c8_sanitize_examples :
    sanitize "CheckSpelling" = "check-spelling" ∧ sanitize "HTTPServer" = "http-server" := by
  decide

/-- Claim C9: a task object built by `zug.New` executes its wrapped
function at most once per object: over any non-empty sequence of
`RunTask` calls with arbitrary contexts, the function runs exactly
once (on the first call) and every call returns the result of that
first execution, whatever contexts — hence whatever derived scopes —
the later calls carry. -/
theorem c9_wraptask_runs_once (fn : Nat → Option GoErr) (c : Nat) (cs : List Nat) :
    (wrapCalls fn ⟨false, none⟩ (c :: cs)).1 = List.replicate (cs.length + 1) (fn c) ∧
    (wrapCalls fn ⟨false, none⟩ (c :: cs)).2.2 = 1 := by
  simp [wrapCalls, wrapRunTask, wrapCalls_fired, List.replicate_succ]

/-- Claim C3: for an identity not yet seen in a scope, the first
`worker.run` call executes the body and caches its error, and every
later call for the same identity in that scope returns the identical
cached error without executing a body: over any sequence of calls
(any completed interleaving — `sync.Once` serializes the execution),
the body runs exactly once and all calls observe the first call's
error, whatever the later calls' bodies would have produced. -/
theorem c3_worker_runs_once_per_identity (h : Heap) (sc : Scope) (rid : ResultID)
    (b1 : Option GoErr) (bs : List (Option GoErr))
    (hfresh : lookupScope sc rid = none) :
    (runCalls h sc rid (b1 :: bs)).rets = List.replicate (bs.length + 1) b1 ∧
    (runCalls h sc rid (b1 :: bs)).execs = 1 := by
  have hl : lookupScope ((rid, h.length) :: sc) rid = some h.length := by
    simp [lookupScope]
  have hc : cellAt (h ++ [⟨true, b1⟩]) h.length = some ⟨true, b1⟩ :=
    cellAt_append_self h _
  simp only [runCalls, workerRun, hfresh]
  simp [runCalls_cached rid h.length b1 bs _ _ hl hc, List.replicate_succ]

/-- Witness for C3 at a concrete fresh identity in the empty scope. -/
theorem c3_witness :
    lookupScope [] ⟨0, 0⟩ = none ∧
    ((runCalls [] [] ⟨0, 0⟩ [some ⟨"x"⟩, none]).rets = List.replicate 2 (some ⟨"x"⟩) ∧
     (runCalls [] [] ⟨0, 0⟩ [some ⟨"x"⟩, none]).execs = 1) :=
  ⟨rfl, c3_worker_runs_once_per_identity [] [] ⟨0, 0⟩ (some ⟨"x"⟩) [none] rfl⟩

/-- Counterexample to claim C5: complete an identity through the
background context, derive a child context with
`worker.With(ctx, LocalState())`, and re-run the same identity through
the derived context.  The claim says the body is invoked (exactly
once) in the child scope; in the program the run executes no body at
all and returns the already-cached error (`With` stores a `**worker`
the `from` type assertion rejects, so the global worker and its fired
cell are consulted; and the `LocalState` copy shares the fired cell's
pointer in any case). -/
theorem c5_counterexample :
    w5run1.executed = true ∧ w5run2.executed = false ∧ w5run2.ret = some ⟨"first"⟩ := by
  decide

/-- Claim C5 as amended: deriving a child scope with
`worker.LocalState` and then re-running a task whose identity already
completed in the parent scope does not re-invoke the body in the
parent scope, and does not invoke the body in the child scope either:
the run through the derived context returns the error already cached
for that identity.  Stated for any world and any parent context the
program can construct (one whose worker resolves to `globalWorker`,
which `from` yields for background contexts and for every
`With`-derived context). -/
theorem c5_localstate_child_returns_cached (wd : World) (pctx : Option CtxVal)
    (rid : ResultID) (b1 b2 : Option GoErr)
    (h0 : 0 < wd.workers.length) (hp : fromCtx pctx = 0)
    (hfresh : lookupScope (tableAt wd.workers 0) rid = none) :
    (workerRunCtx wd pctx rid b1).executed = true ∧
    (workerRunCtx
        (workerWith (workerRunCtx wd pctx rid b1).world pctx [.localStateOpt]).1
        (workerWith (workerRunCtx wd pctx rid b1).world pctx [.localStateOpt]).2
        rid b2).executed = false ∧
    (workerRunCtx
        (workerWith (workerRunCtx wd pctx rid b1).world pctx [.localStateOpt]).1
        (workerWith (workerRunCtx wd pctx rid b1).world pctx [.localStateOpt]).2
        rid b2).ret = b1 := by
  obtain ⟨cells, workers⟩ := wd
  cases workers with
  | nil => simp at h0
  | cons t ts =>
    simp only [tableAt] at hfresh
    simp [workerRunCtx, workerWith, applyOptions, workerRun, tableAt, setTable,
      lookupScope, hp, fromCtx_ptrPtr, hfresh, cellAt_append_self]

/-- Witness for the amended C5 at a concrete world, identity and
bodies. -/
theorem c5_witness :
    (0 < (⟨[], [[]]⟩ : World).workers.length ∧ fromCtx none = 0 ∧
      lookupScope (tableAt (⟨[], [[]]⟩ : World).workers 0) ⟨0, 1⟩ = none) ∧
    ((workerRunCtx ⟨[], [[]]⟩ none ⟨0, 1⟩ (some ⟨"a"⟩)).executed = true ∧
     (workerRunCtx
         (workerWith (workerRunCtx ⟨[], [[]]⟩ none ⟨0, 1⟩ (some ⟨"a"⟩)).world none
           [.localStateOpt]).1
         (workerWith (workerRunCtx ⟨[], [[]]⟩ none ⟨0, 1⟩ (some ⟨"a"⟩)).world none
           [.localStateOpt]).2
         ⟨0, 1⟩ (some ⟨"b"⟩)).executed = false ∧
     (workerRunCtx
         (workerWith (workerRunCtx ⟨[], [[]]⟩ none ⟨0, 1⟩ (some ⟨"a"⟩)).world none
           [.localStateOpt]).1
         (workerWith (workerRunCtx ⟨[], [[]]⟩ none ⟨0, 1⟩ (some ⟨"a"⟩)).world none
           [.localStateOpt]).2
         ⟨0, 1⟩ (some ⟨"b"⟩)).ret = some ⟨"a"⟩) :=
  ⟨⟨by decide, rfl, rfl⟩,
   c5_localstate_child_returns_cached ⟨[], [[]]⟩ none ⟨0, 1⟩ (some ⟨"a"⟩) (some ⟨"b"⟩)
     (by decide) rfl rfl⟩

/-- Claim C6: the claim (and `EmptyState`'s own doc comment, "Any task
started in the previous context can be run again in the new context")
says a `worker.With(ctx, EmptyState())` derivation lets completed
tasks run again.  In the shipped code the derivation is inert:
completing identity `(0, 1)` through the background context, deriving
the reset context, and re-running the identity executes no body and
returns the cached error, because `With` stores `&w` — a `**worker` —
which `from`'s `*worker` type assertion rejects, so the run still
consults `globalWorker`'s table (conjuncts 2-3 exhibit the stored
value and its fallback resolution).  Had the context carried the
derived worker as the `*worker` that `from` can read, the same run
would have executed the body again against the empty table (final
conjuncts). -/
theorem c6_emptystate_derivation_inert :
    w6run1.executed = true ∧
    w6derived.2 = some (.ptrPtr 1) ∧
    fromCtx w6derived.2 = 0 ∧
    w6run2.executed = false ∧
    w6run2.ret = some ⟨"e1"⟩ ∧
    w6runFixed.executed = true ∧
    w6runFixed.ret = some ⟨"e2"⟩ := by
  decide

/-- Claim C7: command resolution compares registered name tokens by
exact token-wise equality against a prefix of the remaining arguments
(`nameMatches` coincides with `List.isPrefixOf`), visits bound tasks
in registration order with the first match winning (`config.match` is
`List.find?` over the registration list); concretely, with `list`
registered before `list go sources`, on the input
`list go sources extra` both candidates match but `list` wins,
`go sources extra` is left, and resolution fails with an unknown
command error — while additionally registering `go` (with a parser)
lets resolution complete with the plan `list`, `go`. -/
theorem c7_first_match_resolution :
    (∀ name args, nameMatches name args = name.isPrefixOf args) ∧
    (∀ cfg args, matchTask cfg args = cfg.find? (fun t => nameMatches t.name args)) ∧
    (matchTask cfg7 ["list", "go", "sources", "extra"]).map (·.name) = some ["list"] ∧
    nameMatches listGoSourcesTask.name ["list", "go", "sources", "extra"] = true ∧
    configRun cfg7 "help" ["list", "go", "sources", "extra"] =
      some (.unknownCmd ["go", "sources", "extra"]) ∧
    configRun (cfg7 ++ [goTask]) "help" ["list", "go", "sources", "extra"] =
      some (.planned [["list"], ["go"]]) := by
  refine ⟨?_, ?_, by decide, by decide, by decide, by decide⟩
  · intro name args
    unfold nameMatches
    split
    · rename_i hlt
      cases hp : name.isPrefixOf args
      · rfl
      · exact absurd (isPrefixOf_imp_length_le name args hp) (by omega)
    · exact matchTokens_eq_isPrefixOf name args
  · intro cfg args
    induction cfg with
    | nil => rfl
    | cons t ts ih =>
      unfold matchTask
      cases hm : nameMatches t.name args <;> simp [List.find?, hm, ih]

/-- Claim C10: when a bound task matches, the loop body of
`config.Run` drops exactly as many argument tokens as the matched name
has tokens, so when every registered name has at least one token every
iteration strictly shrinks the argument vector and the resolution loop
terminates on any finite argument vector: fuel exceeding the argument
count is never exhausted.  A bound task with an empty name token list,
by contrast, matches every argument vector while `drop 0` consumes
nothing. -/
theorem c10_resolution_terminates (cfg : List RTask) (hn : ∀ t ∈ cfg, t.name ≠ []) :
    (∀ fuel args plan, args.length < fuel → (runLoop cfg fuel args plan).isSome = true) ∧
    (∀ args, nameMatches [] args = true) := by
  constructor
  · intro fuel
    induction fuel with
    | zero => intro args plan h; omega
    | succ n ih =>
      intro args plan h
      match args with
      | [] => simp [runLoop]
      | a :: rest =>
        rw [runLoop]
        cases hm : matchTask cfg (a :: rest) with
        | none => simp
        | some t =>
          have hlen : t.name.length ≤ (a :: rest).length :=
            nameMatches_imp_length_le _ _ (matchTask_matches cfg (a :: rest) t hm)
          have hpos : 0 < t.name.length := by
            have hne := hn t (matchTask_mem cfg (a :: rest) t hm)
            cases hname : t.name with
            | nil => exact absurd hname hne
            | cons x xs => simp
          have hlen' : (a :: rest).length ≤ n := by
            simp only [List.length_cons] at h ⊢
            omega
          have hn1 : 1 ≤ n := by
            have : 1 ≤ (a :: rest).length := by simp
            omega
          cases hs : t.settings with
          | some e => simp [hs]
          | none =>
            simp only [hs]
            cases hpf : t.parserFn with
            | some p =>
              simp only [hpf]
              cases hp : p ((a :: rest).drop t.name.length) with
              | err e => simp [hp]
              | helpReq => simp [hp]
              | ok =>
                simp only [hp]
                exact ih [] (plan ++ [t.name]) (by simpa using hn1)
            | none =>
              simp only [hpf]
              cases hdrop : (a :: rest).drop t.name.length with
              | nil =>
                simp only [hdrop]
                exact ih [] (plan ++ [t.name]) (by simpa using hn1)
              | cons r rs =>
                simp only [hdrop]
                have hdlen : (r :: rs).length < n := by
                  have hdl := congrArg List.length hdrop
                  simp only [List.length_drop, List.length_cons] at hdl hlen hlen' ⊢
                  omega
                cases hr : (r == "--help" || r == "-h") with
                | true => simp [hr]
                | false =>
                  simp only [hr, Bool.false_eq_true, if_false]
                  exact ih (r :: rs) (plan ++ [t.name]) hdlen
  · intro args
    cases args <;> rfl

/-- Witness for C10: a configuration with the single one-token name
`list` satisfies the precondition. -/
theorem c10_witness :
    (∀ t ∈ [listTask], t.name ≠ []) ∧
    ((∀ fuel args plan, args.length < fuel → (runLoop [listTask] fuel args plan).isSome = true) ∧
     (∀ args, nameMatches [] args = true)) := by
  have hn : ∀ t ∈ [listTask], t.name ≠ [] := by
    intro t ht
    rw [List.mem_singleton] at ht
    subst ht
    simp [listTask]
  exact ⟨hn, c10_resolution_terminates [listTask] hn⟩

end Zugzug
